import Mathlib

/-!
Verification of the job-finder matching engine (`agents/matcher.py`,
`models/models.py`).

The Python source is shallowly embedded: pure helper functions become Lean
functions over `String` / `List Char` / `List ℝ`, the effectful
`match_and_rank` entry point becomes a pure function that additionally
returns the ordered trace of embedding-service invocations, and the
external OpenAI embedding service is a parameter (`Embedder`).

Modelling conventions:
* Python floats are modelled by `ℝ`.
* `str.lower` is modelled by `Char.toLower` (ASCII case folding; every
  string the scoring rules inspect is ASCII).
* the regex `\b...\b` used for whole-word skill matching is modelled by
  `wholeWordMatch`; the word-boundary assertion `\b` holds at a position
  exactly when the characters on its two sides differ in wordness, where
  word characters are `[A-Za-z0-9_]` (the ASCII fragment of `\w`).
* Python's substring test `needle in hay` is modelled by `containsSub`.
-/

/-- Word characters of the regex class `\w` (ASCII fragment): letters,
digits and the underscore. -/
def isWordChar (c : Char) : Bool :=
  c.isAlphanum || c == '_'

/-- Whether the character at index `i` of `t` is a word character;
positions outside the text count as non-word. -/
def wordCharAt (t : List Char) (i : Nat) : Bool :=
  match t[i]? with
  | some c => isWordChar c
  | none => false

/-- The regex word-boundary assertion `\b` at position `i` of `t`: the
wordness of the character before the position differs from the wordness of
the character after it (out-of-bounds counts as non-word). -/
def boundary (t : List Char) (i : Nat) : Bool :=
  match i with
  | 0 => wordCharAt t 0
  | j + 1 => wordCharAt t j != wordCharAt t (j + 1)

/-- A match of the pattern `\b<pat>\b` starting at position `i` of `text`
(`pat` is a literal, as produced by `re.escape`). -/
def matchesAt (pat text : List Char) (i : Nat) : Bool :=
  pat.isPrefixOf (text.drop i) && boundary text i && boundary text (i + pat.length)

/-- Search of `re.search` for the pattern `\b<pat>\b` over `text`: some starting
position yields a match. -/
def wholeWordMatch (pat text : List Char) : Bool :=
  (List.range (text.length + 1)).any fun i => matchesAt pat text i

/-- Python's substring test `needle in hay`. -/
def containsSub (needle hay : List Char) : Bool :=
  (List.range (hay.length + 1)).any fun i => needle.isPrefixOf (hay.drop i)

/-- Lowering `s.lower()` as a character list (ASCII case folding). -/
def lowerChars (s : String) : List Char :=
  s.data.map Char.toLower

/-- The fixed reference vocabulary `common_tech_skills` of
`_calculate_skill_overlap`, in declaration order. -/
def commonTechSkills : List String :=
  ["Python", "Java", "JavaScript", "TypeScript", "Go", "Rust", "C++",
   "Docker", "Kubernetes", "AWS", "Azure", "GCP",
   "React", "Vue", "Angular", "Node.js",
   "PostgreSQL", "MongoDB", "Redis",
   "Kafka", "RabbitMQ", "GraphQL", "REST",
   "CI/CD", "Jenkins", "GitLab", "GitHub Actions",
   "Terraform", "Ansible", "Linux"]

/-- Embedding of `SmartMatcher._calculate_skill_overlap`: overlapping CV skills are
those that occur in the lowered job description as a whole word
(`\b`-delimited regex search on the lowered skill); missing skills are the
reference-vocabulary terms whose lowering is a substring of the lowered
job description and that are not literally members of the CV skill
list. -/
def calculateSkillOverlap (cv_skills : List String) (job_description : String) :
    List String × List String :=
  let jobDescLower := lowerChars job_description
  let overlapping := cv_skills.filter fun skill =>
    wholeWordMatch (lowerChars skill) jobDescLower
  let missing := commonTechSkills.filter fun skill =>
    containsSub (lowerChars skill) jobDescLower && !(cv_skills.contains skill)
  (overlapping, missing)

/-- Dot product of two vectors, `np.dot` on equal-length inputs. -/
def dotProduct (a b : List ℝ) : ℝ :=
  (List.zipWith (· * ·) a b).sum

/-- Euclidean norm `np.linalg.norm`. -/
noncomputable def magnitude (v : List ℝ) : ℝ :=
  Real.sqrt (dotProduct v v)

/-- Embedding of `SmartMatcher._cosine_similarity`: returns `0.0` when either magnitude
is zero, otherwise the dot product divided by the product of the
magnitudes. -/
noncomputable def cosineSimilarity (vec1 vec2 : List ℝ) : ℝ :=
  if magnitude vec1 = 0 ∨ magnitude vec2 = 0 then 0
  else dotProduct vec1 vec2 / (magnitude vec1 * magnitude vec2)

/-- Embedding of `SmartMatcher._calculate_base_score`: similarity times 50, plus the
absolute overlap bonus (4 per overlapping skill, capped at 30, only added
when the overlap is non-empty), plus the coverage-ratio bonus (fraction of
CV skills that overlap, times 20, only added when the CV skill list is
non-empty), minus the missing-skill penalty (1 per gap, capped at 5, only
subtracted when there are gaps), clamped to `[0, 100]` as the last step. -/
noncomputable def calculateBaseScore (cv_embedding job_embedding : List ℝ)
    (cv_skills : List String) (job_description : String) : ℝ :=
  let similarity := cosineSimilarity cv_embedding job_embedding
  let pair := calculateSkillOverlap cv_skills job_description
  let overlapping := pair.1
  let missing := pair.2
  let score0 := similarity * 50
  let score1 := if overlapping.isEmpty then score0
    else score0 + min ((overlapping.length : ℝ) * 4) 30
  let score2 := if cv_skills.isEmpty then score1
    else score1 + (overlapping.length : ℝ) / (cv_skills.length : ℝ) * 20
  let score3 := if missing.isEmpty then score2
    else score2 - min ((missing.length : ℝ) * 1) 5
  max 0 (min 100 score3)

/-- The `Literal["positive", "neutral", "negative"]` sentiment values of
`CompanyInsights.reddit_sentiment` (`models/models.py`). -/
inductive Sentiment where
  | positive
  | neutral
  | negative
deriving DecidableEq

/-- Model of `models.CVAnalysis` (the `experience_level` literal is kept as the
string interpolated into the CV text). -/
structure CVAnalysis where
  skills : List String
  experience_level : String
  years_of_experience : Nat
  preferred_locations : List String
  key_achievements : List String
deriving DecidableEq

/-- Model of `models.Job` (the `source` literal is kept as a string; it is never
inspected by the matcher). -/
structure Job where
  title : String
  company : String
  location : String
  description : String
  url : String
  posted_date : Option String
  source : String
deriving DecidableEq

/-- Model of `models.CompanyInsights`. -/
structure CompanyInsights where
  company_name : String
  reddit_sentiment : Sentiment
  reddit_highlights : List String
  recent_news : List String
  culture_notes : List String
  data_source : String
deriving DecidableEq

/-- Model of `models.JobMatch`. -/
structure JobMatch where
  job : Job
  company_insights : CompanyInsights
  match_score : ℝ
  skill_overlap : List String
  skill_gaps : List String
  recommendation : String
  reasoning : List String

/-- Embedding of `SmartMatcher._apply_insights_bonus`: +5 for positive sentiment, −10
for negative, unchanged otherwise, then clamped to `[0, 100]`. -/
noncomputable def applyInsightsBonus (base_score : ℝ) (company_insights : CompanyInsights) : ℝ :=
  let score := base_score
  let score := if company_insights.reddit_sentiment = Sentiment.positive then score + 5
    else if company_insights.reddit_sentiment = Sentiment.negative then score - 10
    else score
  max 0 (min 100 score)

/-- Embedding of `SmartMatcher._generate_recommendation`. -/
noncomputable def generateRecommendation (score : ℝ) : String :=
  if 80 ≤ score then "Strong Match"
  else if 65 ≤ score then "Good Fit"
  else if 50 ≤ score then "Consider"
  else "Skip"

/-- Python's `%.0f` formatting of the score, modelled as rounding to the
nearest integer (ties at `.5`, which Python rounds half-to-even, are not
score values the claims depend on). -/
noncomputable def formatScore (x : ℝ) : String :=
  toString (round x)

/-- Embedding of `SmartMatcher._generate_reasoning`. -/
noncomputable def generateReasoning (score : ℝ) (skill_overlap skill_gaps : List String)
    (company_insights : CompanyInsights) : List String :=
  let tier :=
    if 80 ≤ score then "Excellent match with " ++ formatScore score ++ "% compatibility"
    else if 65 ≤ score then "Good fit with " ++ formatScore score ++ "% compatibility"
    else "Moderate fit with " ++ formatScore score ++ "% compatibility"
  [tier]
    ++ (if skill_overlap.isEmpty then []
        else ["Strong skill alignment: " ++ String.intercalate ", " (skill_overlap.take 5)])
    ++ (if skill_gaps.isEmpty then []
        else ["Missing skills: " ++ String.intercalate ", " (skill_gaps.take 3)])
    ++ (match company_insights.reddit_sentiment with
        | Sentiment.positive => ["Company has positive reviews and culture"]
        | Sentiment.negative => ["⚠️  Company has some negative reviews"]
        | Sentiment.neutral => [])

/-- The default neutral insight `CompanyInsights(company_name=job.company,
reddit_sentiment="neutral")` built in `match_and_rank` when no insight
matches; the remaining fields take their pydantic defaults. -/
def defaultInsight (company : String) : CompanyInsights where
  company_name := company
  reddit_sentiment := Sentiment.neutral
  reddit_highlights := []
  recent_news := []
  culture_notes := []
  data_source := "multiple"

/-- Body of the per-job loop of `match_and_rank`: skill overlap, base
score, insight lookup (`next(..., default)` over the insight list by exact
company-name equality), sentiment adjustment, recommendation, reasoning,
assembled into a `JobMatch`. -/
noncomputable def buildMatch (cv_embedding : List ℝ) (cv : CVAnalysis)
    (company_insights_list : List CompanyInsights) (job : Job)
    (job_embedding : List ℝ) : JobMatch :=
  let pair := calculateSkillOverlap cv.skills job.description
  let base_score := calculateBaseScore cv_embedding job_embedding cv.skills job.description
  let company_insights :=
    (company_insights_list.find? fun ci => ci.company_name == job.company).getD
      (defaultInsight job.company)
  let final_score := applyInsightsBonus base_score company_insights
  { job := job
    company_insights := company_insights
    match_score := final_score
    skill_overlap := pair.1
    skill_gaps := pair.2
    recommendation := generateRecommendation final_score
    reasoning := generateReasoning final_score pair.1 pair.2 company_insights }

/-- Text preprocessing shared by `_create_embedding` and
`_create_embeddings_batch`: collapse whitespace runs via
`" ".join(text.split())`, then truncate to 8000 characters. -/
def cleanText (text : String) : String :=
  let t := String.intercalate " " ((text.split Char.isWhitespace).filter fun w => w ≠ "")
  if t.length > 8000 then t.take 8000 else t

/-- The external embedding service (the OpenAI client): one entry for
single texts and one for batches. -/
structure Embedder where
  embed : String → List ℝ
  embedBatch : List String → List (List ℝ)

/-- Embedding of `SmartMatcher._create_embedding`: clean the text, then call the
service once. -/
def createEmbedding (E : Embedder) (text : String) : List ℝ :=
  E.embed (cleanText text)

/-- Embedding of `SmartMatcher._create_embeddings_batch`: clean every text, then call
the service once with the whole batch. -/
def createEmbeddingsBatch (E : Embedder) (texts : List String) : List (List ℝ) :=
  E.embedBatch (texts.map cleanText)

/-- The rich CV text built at the top of `match_and_rank`: every skill is
repeated with varying phrasing ("Expert in X", "Professional X
experience", and, when `years_of_experience >= 3`, "Advanced X skills"),
followed by the role, seniority, achievements and location preferences.
Empty `desired_role` / `desired_location` fall back to the defaults the
`or` expressions supply. -/
def buildCvText (cv : CVAnalysis) (desired_role desired_location : String) : String :=
  let skillsContext := cv.skills.flatMap fun skill =>
    ["Expert in " ++ skill, "Professional " ++ skill ++ " experience"]
      ++ (if 3 ≤ cv.years_of_experience then ["Advanced " ++ skill ++ " skills"] else [])
  "\n        Professional "
    ++ (if desired_role = "" then "Developer" else desired_role)
    ++ " with " ++ toString cv.years_of_experience ++ " years of experience.\n        "
    ++ cv.experience_level ++ " level professional.\n\n        Core Technical Skills:\n        "
    ++ String.intercalate " " skillsContext
    ++ "\n\n        Technical Expertise: " ++ String.intercalate ", " cv.skills
    ++ "\n\n        Key Achievements and Experience:\n        "
    ++ String.intercalate " " cv.key_achievements
    ++ "\n\n        Career Level: " ++ cv.experience_level
    ++ " developer with proven track record\n        Years of Experience: "
    ++ toString cv.years_of_experience ++ " years\n\n        Looking for: "
    ++ (if desired_role = "" then "challenging opportunities" else desired_role)
    ++ "\n        Preferred Location: "
    ++ (if desired_location = "" then "flexible" else desired_location)
    ++ "\n        Location Preferences: " ++ String.intercalate ", " cv.preferred_locations
    ++ "\n\n        This candidate has strong capabilities in: "
    ++ String.intercalate ", " cv.skills ++ "\n        "

/-- The per-job text `f"{job.title} {job.description}"`. -/
def jobText (job : Job) : String :=
  job.title ++ " " ++ job.description

/-- One invocation of an embedding entry point (`_create_embedding` or
`_create_embeddings_batch`), with the text(s) it was handed. -/
inductive EmbedCall where
  | single (text : String)
  | batch (texts : List String)
deriving DecidableEq

/-- The comparator realising `matches.sort(key=lambda m: m.match_score,
reverse=True)`: `a` may precede `b` when `a`'s score is at least `b`'s;
a stable sort under this comparator keeps equal-score elements in input
order, as Python's stable `list.sort` does. -/
noncomputable def scoreDesc (a b : JobMatch) : Bool :=
  decide (b.match_score ≤ a.match_score)

/-- The list of matches built by the per-job loop of `match_and_rank`, in
input order (before sorting): jobs are zipped with the batch embeddings of
their texts. -/
noncomputable def preMatches (E : Embedder) (cv : CVAnalysis) (jobs : List Job)
    (company_insights_list : List CompanyInsights)
    (desired_role desired_location : String) : List JobMatch :=
  let cv_embedding := createEmbedding E (buildCvText cv desired_role desired_location)
  let job_embeddings := createEmbeddingsBatch E (jobs.map jobText)
  (jobs.zip job_embeddings).map fun p =>
    buildMatch cv_embedding cv company_insights_list p.1 p.2

/-- Embedding of `SmartMatcher.match_and_rank` together with the ordered trace of
embedding entry-point invocations: the CV embedding is requested first
(before the empty-jobs check), then, only when the job list is non-empty,
one batch call embeds all job texts; the assembled matches are sorted by
score, highest first, with a stable sort. -/
noncomputable def matchAndRankTraced (E : Embedder) (cv : CVAnalysis) (jobs : List Job)
    (company_insights_list : List CompanyInsights)
    (desired_role desired_location : String) : List JobMatch × List EmbedCall :=
  let cvText := buildCvText cv desired_role desired_location
  let trace0 := [EmbedCall.single cvText]
  if jobs.isEmpty then ([], trace0)
  else
    ((preMatches E cv jobs company_insights_list desired_role desired_location).mergeSort
        scoreDesc,
      trace0 ++ [EmbedCall.batch (jobs.map jobText)])

/-- The value returned by `match_and_rank`. -/
noncomputable def matchAndRank (E : Embedder) (cv : CVAnalysis) (jobs : List Job)
    (company_insights_list : List CompanyInsights)
    (desired_role desired_location : String) : List JobMatch :=
  (matchAndRankTraced E cv jobs company_insights_list desired_role desired_location).1

/-- A concrete embedding service used to instantiate the claims: every
text embeds to the one-dimensional vector `[1]`. -/
noncomputable def mockEmbedder : Embedder where
  embed := fun _ => [1]
  embedBatch := fun texts => texts.map fun _ => [1]

/-- A concrete candidate profile used to instantiate the claims. -/
def sampleCV : CVAnalysis where
  skills := ["Python"]
  experience_level := "Junior"
  years_of_experience := 1
  preferred_locations := []
  key_achievements := []

lemma clamp_nonneg (s : ℝ) : 0 ≤ max 0 (min 100 s) :=
  le_max_left _ _

lemma clamp_le_100 (s : ℝ) : max 0 (min 100 s) ≤ 100 :=
  max_le (by norm_num) (min_le_left _ _)

lemma containsSub_iff (needle hay : List Char) :
    containsSub needle hay = true ↔ needle <:+: hay := by
  unfold containsSub
  simp only [List.any_eq_true, List.mem_range, List.isPrefixOf_iff_prefix]
  constructor
  · rintro ⟨i, _, t, ht⟩
    exact ⟨hay.take i, t, by rw [List.append_assoc, ht, List.take_append_drop]⟩
  · rintro ⟨s, t, rfl⟩
    refine ⟨s.length, ?_, t, ?_⟩
    · simp only [List.length_append]
      omega
    · rw [List.append_assoc, List.drop_left]

lemma boundary_eq_false_of_lt (t : List Char) (i : Nat) (h : t.length < i) :
    boundary t i = false := by
  match i with
  | j + 1 =>
    have h1 : t[j]? = none := List.getElem?_eq_none (by omega)
    have h2 : t[j + 1]? = none := List.getElem?_eq_none (by omega)
    simp [boundary, wordCharAt, h1, h2]

lemma wholeWordMatch_iff (pat text : List Char) :
    wholeWordMatch pat text = true ↔
      ∃ i, pat <+: text.drop i ∧ boundary text i = true ∧
        boundary text (i + pat.length) = true := by
  unfold wholeWordMatch matchesAt
  simp only [List.any_eq_true, List.mem_range, Bool.and_eq_true, List.isPrefixOf_iff_prefix]
  constructor
  · rintro ⟨i, _, ⟨hpre, hb1⟩, hb2⟩
    exact ⟨i, hpre, hb1, hb2⟩
  · rintro ⟨i, hpre, hb1, hb2⟩
    refine ⟨i, ?_, ⟨hpre, hb1⟩, hb2⟩
    by_contra hgt
    rw [boundary_eq_false_of_lt text i (by omega)] at hb1
    exact Bool.false_ne_true hb1

lemma dotProduct_nil_right (a : List ℝ) : dotProduct a [] = 0 := by
  cases a <;> simp [dotProduct]

lemma dotProduct_cons (x y : ℝ) (a b : List ℝ) :
    dotProduct (x :: a) (y :: b) = x * y + dotProduct a b := by
  simp [dotProduct]

lemma dotProduct_self_nonneg (v : List ℝ) : 0 ≤ dotProduct v v := by
  induction v with
  | nil => simp [dotProduct]
  | cons x xs ih =>
    rw [dotProduct_cons]
    nlinarith [mul_self_nonneg x]

lemma dotProduct_self_pos (v : List ℝ) (h : ∃ x ∈ v, x ≠ 0) : 0 < dotProduct v v := by
  induction v with
  | nil => simp at h
  | cons x xs ih =>
    rw [dotProduct_cons]
    rcases h with ⟨y, hy, hy0⟩
    rcases List.mem_cons.mp hy with rfl | hmem
    · nlinarith [dotProduct_self_nonneg xs, mul_self_pos.mpr hy0]
    · have hx := ih ⟨y, hmem, hy0⟩
      nlinarith [mul_self_nonneg x]

lemma dotProduct_neg_right (a b : List ℝ) :
    dotProduct a (b.map fun x => -x) = -dotProduct a b := by
  induction a generalizing b with
  | nil => simp [dotProduct]
  | cons x xs ih =>
    cases b with
    | nil => simp [dotProduct]
    | cons y ys =>
      rw [List.map_cons, dotProduct_cons, dotProduct_cons, ih]
      ring

lemma dotProduct_neg_left (a b : List ℝ) :
    dotProduct (a.map fun x => -x) b = -dotProduct a b := by
  induction a generalizing b with
  | nil => simp [dotProduct]
  | cons x xs ih =>
    cases b with
    | nil => simp [dotProduct_nil_right]
    | cons y ys =>
      rw [List.map_cons, dotProduct_cons, dotProduct_cons, ih]
      ring

/-- Cauchy–Schwarz for the list dot product. -/
lemma dotProduct_sq_le (a b : List ℝ) :
    dotProduct a b ^ 2 ≤ dotProduct a a * dotProduct b b := by
  induction a generalizing b with
  | nil => simp [dotProduct]
  | cons x xs ih =>
    cases b with
    | nil => simp [dotProduct_nil_right]
    | cons y ys =>
      have hA := dotProduct_self_nonneg xs
      have hB := dotProduct_self_nonneg ys
      have hIH := ih ys
      rw [dotProduct_cons, dotProduct_cons, dotProduct_cons]
      rcases eq_or_lt_of_le hA with hA0 | hApos
      · have hsq : dotProduct xs ys ^ 2 = 0 := by
          have h1 : dotProduct xs ys ^ 2 ≤ 0 := by
            rw [← hA0, zero_mul] at hIH
            exact hIH
          exact le_antisymm h1 (sq_nonneg _)
        have hS : dotProduct xs ys = 0 := by
          exact (pow_eq_zero_iff two_ne_zero).mp hsq
        rw [hS, ← hA0]
        nlinarith [mul_self_nonneg x, mul_self_nonneg y]
      · nlinarith [sq_nonneg (dotProduct xs ys * x - dotProduct xs xs * y),
          sq_nonneg x, mul_self_nonneg x]

lemma magnitude_nonneg (v : List ℝ) : 0 ≤ magnitude v :=
  Real.sqrt_nonneg _

lemma magnitude_eq_zero_iff (v : List ℝ) : magnitude v = 0 ↔ dotProduct v v = 0 := by
  unfold magnitude
  exact Real.sqrt_eq_zero (dotProduct_self_nonneg v)

lemma magnitude_mul_self (v : List ℝ) : magnitude v * magnitude v = dotProduct v v :=
  Real.mul_self_sqrt (dotProduct_self_nonneg v)

lemma magnitude_neg (v : List ℝ) : magnitude (v.map fun x => -x) = magnitude v := by
  unfold magnitude
  rw [dotProduct_neg_left, dotProduct_neg_right, neg_neg]

/-- C1: the base score is the clamp to `[0,100]` of
`similarity * 50 + min(4·|overlap|, 30) + coverage + … − min(|gaps|, 5)`,
with the coverage-ratio bonus `|overlap|/|skills| · 20` contributed only
for a non-empty candidate skill list, and the clamp applied last. -/
theorem base_score_formula (cv_embedding job_embedding : List ℝ)
    (cv_skills : List String) (job_description : String) :
    calculateBaseScore cv_embedding job_embedding cv_skills job_description =
      max 0 (min 100
        (cosineSimilarity cv_embedding job_embedding * 50
          + min (((calculateSkillOverlap cv_skills job_description).1.length : ℝ) * 4) 30
          + (if cv_skills = [] then 0
             else ((calculateSkillOverlap cv_skills job_description).1.length : ℝ)
               / (cv_skills.length : ℝ) * 20)
          - min (((calculateSkillOverlap cv_skills job_description).2.length : ℝ) * 1) 5)) := by
  rcases hp : calculateSkillOverlap cv_skills job_description with ⟨ov, gaps⟩
  simp only [calculateBaseScore, hp]
  cases cv_skills with
  | nil =>
    have hov : ov = [] := by
      have h := congrArg Prod.fst hp
      simpa [calculateSkillOverlap] using h.symm
    subst hov
    by_cases h3 : gaps = [] <;>
      simp [h3, List.isEmpty_iff]
  | cons a l =>
    by_cases h1 : ov = [] <;> by_cases h3 : gaps = [] <;>
      simp [h1, h3, List.isEmpty_iff]

/-- C2 counterexample: with an empty job list, `match_and_rank` does
return `[]`, but its embedding-call trace is non-empty — the single-text
embedding entry point is invoked on the CV text before the empty check, so
the claim "makes no call to the embedder" is false. -/
theorem empty_jobs_embedder_called :
    (matchAndRankTraced mockEmbedder sampleCV [] [] "" "").1 = [] ∧
    (matchAndRankTraced mockEmbedder sampleCV [] [] "" "").2 ≠ [] := by
  constructor <;> simp [matchAndRankTraced]

/-- C2 (amended): with an empty job list, `match_and_rank` returns `[]`
and never invokes the batch embedding entry point; it invokes the
single-text embedding entry point exactly once, on the CV text, before
returning. -/
theorem empty_jobs_fast_path (E : Embedder) (cv : CVAnalysis)
    (company_insights_list : List CompanyInsights) (dr dl : String) :
    matchAndRank E cv [] company_insights_list dr dl = [] ∧
    (matchAndRankTraced E cv [] company_insights_list dr dl).2 =
      [EmbedCall.single (buildCvText cv dr dl)] := by
  constructor <;> simp [matchAndRank, matchAndRankTraced]

/-- C3: a reference-vocabulary term is a gap iff its lowering is a
substring (not whole-word) of the lowered job text and the term is not a
case-sensitive member of the raw candidate list; with an empty candidate
list the overlap is empty and the gaps are exactly the detected terms. -/
theorem gaps_spec (cv_skills : List String) (job_description : String) :
    (∀ term, term ∈ (calculateSkillOverlap cv_skills job_description).2 ↔
        term ∈ commonTechSkills ∧ lowerChars term <:+: lowerChars job_description ∧
          term ∉ cv_skills) ∧
    (calculateSkillOverlap [] job_description).1 = [] ∧
    (calculateSkillOverlap [] job_description).2 =
      commonTechSkills.filter fun t => containsSub (lowerChars t) (lowerChars job_description) := by
  refine ⟨?_, by simp [calculateSkillOverlap], ?_⟩
  · intro term
    simp [calculateSkillOverlap, List.mem_filter, containsSub_iff, and_assoc]
  · unfold calculateSkillOverlap
    simp

/-- C4: a candidate skill is in the overlap list iff it occurs in the job
text as a case-insensitive whole-word match (some position carries the
occurrence with word boundaries on both sides); the overlap is the
order-preserving filter of the candidate list; `"Java"` does not match in
`"We use JavaScript"` but does in `"We use Java and Spring"`. -/
theorem overlap_spec (cv_skills : List String) (job_description : String) :
    (calculateSkillOverlap cv_skills job_description).1 =
      cv_skills.filter (fun s => wholeWordMatch (lowerChars s) (lowerChars job_description)) ∧
    (calculateSkillOverlap cv_skills job_description).1.Sublist cv_skills ∧
    (∀ s, s ∈ (calculateSkillOverlap cv_skills job_description).1 ↔
        s ∈ cv_skills ∧ ∃ i, lowerChars s <+: (lowerChars job_description).drop i ∧
          boundary (lowerChars job_description) i = true ∧
          boundary (lowerChars job_description) (i + (lowerChars s).length) = true) ∧
    (calculateSkillOverlap ["Java"] "We use JavaScript").1 = [] ∧
    (calculateSkillOverlap ["Java"] "We use Java and Spring").1 = ["Java"] := by
  refine ⟨rfl, List.filter_sublist _, ?_, by decide, by decide⟩
  intro s
  simp [calculateSkillOverlap, List.mem_filter, wholeWordMatch_iff]

/-- C5: the sentiment adjustment adds 5 for positive, subtracts 10 for
negative, adds 0 for neutral, clamps to `[0,100]` afterwards, and the
resulting final score always lies in `[0,100]`. -/
theorem insights_bonus_spec (base_score : ℝ) (ci : CompanyInsights) :
    applyInsightsBonus base_score ci =
      max 0 (min 100 (base_score +
        match ci.reddit_sentiment with
        | Sentiment.positive => 5
        | Sentiment.negative => -10
        | Sentiment.neutral => 0)) ∧
    0 ≤ applyInsightsBonus base_score ci ∧ applyInsightsBonus base_score ci ≤ 100 := by
  obtain ⟨name, s, hig, news, cul, ds⟩ := ci
  cases s <;>
    refine ⟨?_, clamp_nonneg _, clamp_le_100 _⟩ <;>
      · simp [applyInsightsBonus]
        try ring_nf

/-- C10: the overlap list is a subsequence of the candidate skill list,
the gaps list is a subsequence of the reference vocabulary in declaration
order, `|overlap| ≤ |skills|`, and hence the coverage-ratio bonus never
exceeds 20 points. -/
theorem overlap_gaps_sublist (cv_skills : List String) (job_description : String) :
    (calculateSkillOverlap cv_skills job_description).1.Sublist cv_skills ∧
    (calculateSkillOverlap cv_skills job_description).2.Sublist commonTechSkills ∧
    (calculateSkillOverlap cv_skills job_description).1.length ≤ cv_skills.length ∧
    (if cv_skills.isEmpty then 0
     else ((calculateSkillOverlap cv_skills job_description).1.length : ℝ)
       / (cv_skills.length : ℝ) * 20) ≤ 20 := by
  refine ⟨List.filter_sublist _, List.filter_sublist _, (List.filter_sublist _).length_le, ?_⟩
  by_cases h : cv_skills.isEmpty
  · simp [h]
  · rw [if_neg h]
    have hn : 0 < cv_skills.length := by
      cases cv_skills with
      | nil => simp at h
      | cons a l => simp
    have hpos : (0 : ℝ) < (cv_skills.length : ℝ) := by exact_mod_cast hn
    have hratio : ((calculateSkillOverlap cv_skills job_description).1.length : ℝ)
        / (cv_skills.length : ℝ) ≤ 1 := by
      rw [div_le_one hpos]
      exact_mod_cast (List.filter_sublist _).length_le
    nlinarith

/-- C7: cosine similarity returns exactly 0 when either argument has zero
magnitude; for a nonzero vector `v` it is 1 on `(v, v)` and −1 on
`(v, −v)`; otherwise it equals `dot(a,b)/(‖a‖·‖b‖)` and lies in
`[−1, 1]`. -/
theorem cosine_similarity_spec (a b v : List ℝ) :
    (magnitude a = 0 ∨ magnitude b = 0 → cosineSimilarity a b = 0) ∧
    ((∃ x ∈ v, x ≠ 0) →
      cosineSimilarity v v = 1 ∧ cosineSimilarity v (v.map fun x => -x) = -1) ∧
    (¬(magnitude a = 0 ∨ magnitude b = 0) →
      cosineSimilarity a b = dotProduct a b / (magnitude a * magnitude b) ∧
      -1 ≤ cosineSimilarity a b ∧ cosineSimilarity a b ≤ 1) := by
  refine ⟨fun h => by simp [cosineSimilarity, h], fun hv => ?_, fun h => ?_⟩
  · have hd : 0 < dotProduct v v := dotProduct_self_pos v hv
    have hm : magnitude v ≠ 0 := by
      rw [Ne, magnitude_eq_zero_iff]
      exact ne_of_gt hd
    constructor
    · unfold cosineSimilarity
      rw [if_neg (not_or.mpr ⟨hm, hm⟩), magnitude_mul_self]
      exact div_self (ne_of_gt hd)
    · unfold cosineSimilarity
      rw [if_neg (not_or.mpr ⟨hm, by rw [magnitude_neg]; exact hm⟩), magnitude_neg,
        magnitude_mul_self, dotProduct_neg_right, neg_div]
      rw [div_self (ne_of_gt hd)]
  · rcases not_or.mp h with ⟨ha, hb⟩
    have hapos : 0 < magnitude a := lt_of_le_of_ne (magnitude_nonneg a) (Ne.symm ha)
    have hbpos : 0 < magnitude b := lt_of_le_of_ne (magnitude_nonneg b) (Ne.symm hb)
    have hP : 0 < magnitude a * magnitude b := mul_pos hapos hbpos
    have hval : cosineSimilarity a b = dotProduct a b / (magnitude a * magnitude b) := by
      unfold cosineSimilarity
      rw [if_neg h]
    have hcs := dotProduct_sq_le a b
    have hP2 : dotProduct a a * dotProduct b b = (magnitude a * magnitude b) ^ 2 := by
      rw [← magnitude_mul_self a, ← magnitude_mul_self b]
      ring
    rw [hP2] at hcs
    refine ⟨hval, ?_, ?_⟩
    · rw [hval, le_div_iff₀ hP]
      nlinarith [sq_nonneg (dotProduct a b + magnitude a * magnitude b)]
    · rw [hval, div_le_one hP]
      nlinarith [sq_nonneg (dotProduct a b - magnitude a * magnitude b)]

/-- Witness for C7: each branch instantiated at a concrete input. -/
theorem cosine_similarity_spec_witness :
    cosineSimilarity [(0 : ℝ)] [1] = 0 ∧
    (cosineSimilarity [(3 : ℝ), 4] [(3 : ℝ), 4] = 1 ∧
      cosineSimilarity [(3 : ℝ), 4] ([(3 : ℝ), 4].map fun x => -x) = -1) ∧
    (cosineSimilarity [(1 : ℝ)] [1] =
        dotProduct [(1 : ℝ)] [1] / (magnitude [(1 : ℝ)] * magnitude [(1 : ℝ)]) ∧
      -1 ≤ cosineSimilarity [(1 : ℝ)] [1] ∧ cosineSimilarity [(1 : ℝ)] [1] ≤ 1) :=
  ⟨(cosine_similarity_spec [0] [1] []).1 (Or.inl (by simp [magnitude, dotProduct])),
   (cosine_similarity_spec [] [] [3, 4]).2.1 ⟨3, by norm_num, by norm_num⟩,
   (cosine_similarity_spec [1] [1] []).2.2 (by
      rw [not_or]
      constructor <;> simp [magnitude, dotProduct])⟩

lemma mem_zip_left {α β : Type} (a : α) (l₁ : List α) (l₂ : List β)
    (ha : a ∈ l₁) (hlen : l₁.length ≤ l₂.length) : ∃ b, (a, b) ∈ l₁.zip l₂ := by
  induction l₁ generalizing l₂ with
  | nil => simp at ha
  | cons x xs ih =>
    cases l₂ with
    | nil => simp at hlen
    | cons y ys =>
      rw [List.zip_cons_cons]
      rcases List.mem_cons.mp ha with rfl | hmem
      · exact ⟨y, List.mem_cons_self _ _⟩
      · obtain ⟨b, hb⟩ := ih ys hmem (by simp only [List.length_cons] at hlen; omega)
        exact ⟨b, List.mem_cons_of_mem _ hb⟩

/-- C6: when no insight record matches a job's employer by exact string
equality, ranking still produces a result for that job, and that result
carries the default neutral insight (sentiment neutral, empty
highlight/news/culture lists). -/
theorem missing_insight_neutral_fallback (E : Embedder) (cv : CVAnalysis)
    (jobs : List Job) (company_insights_list : List CompanyInsights)
    (dr dl : String) (job : Job)
    (hjob : job ∈ jobs)
    (hlen : ∀ ts, (E.embedBatch ts).length = ts.length)
    (hmiss : ∀ ci ∈ company_insights_list, ci.company_name ≠ job.company) :
    ∃ m ∈ matchAndRank E cv jobs company_insights_list dr dl,
      m.job = job ∧ m.company_insights = defaultInsight job.company := by
  have hne : jobs.isEmpty = false := by
    cases jobs with
    | nil => simp at hjob
    | cons a l => rfl
  have hlen2 : jobs.length ≤ (createEmbeddingsBatch E (jobs.map jobText)).length := by
    rw [createEmbeddingsBatch, hlen]
    simp
  obtain ⟨emb, hemb⟩ := mem_zip_left job jobs _ hjob hlen2
  have hfind : company_insights_list.find? (fun ci => ci.company_name == job.company) = none := by
    rw [List.find?_eq_none]
    intro ci hci
    simp only [beq_iff_eq]
    exact hmiss ci hci
  refine ⟨buildMatch (createEmbedding E (buildCvText cv dr dl)) cv company_insights_list
      job emb, ?_, ?_, ?_⟩
  · rw [matchAndRank, matchAndRankTraced]
    simp only [hne, Bool.false_eq_true, if_false, List.mem_mergeSort, preMatches]
    exact List.mem_map.mpr ⟨(job, emb), hemb, rfl⟩
  · rfl
  · simp [buildMatch, hfind]

/-- Witness for C6: one job at a company with no insight record. -/
def sampleJob : Job where
  title := "Python Developer"
  company := "TechCorp"
  location := "Remote"
  description := "Looking for a Python developer"
  url := "https://example.com/job1"
  posted_date := none
  source := "direct"

theorem missing_insight_neutral_fallback_witness :
    sampleJob ∈ [sampleJob] ∧
    (∀ ts, (mockEmbedder.embedBatch ts).length = ts.length) ∧
    (∀ ci ∈ ([] : List CompanyInsights), ci.company_name ≠ sampleJob.company) ∧
    ∃ m ∈ matchAndRank mockEmbedder sampleCV [sampleJob] [] "" "",
      m.job = sampleJob ∧ m.company_insights = defaultInsight sampleJob.company :=
  ⟨List.mem_singleton_self _, fun ts => by simp [mockEmbedder], fun ci h => by simp at h,
    missing_insight_neutral_fallback mockEmbedder sampleCV [sampleJob] [] "" "" sampleJob
      (List.mem_singleton_self _) (fun ts => by simp [mockEmbedder])
      (fun ci h => by simp at h)⟩

/-- C8: whenever the embedding service returns one vector per input text,
ranking yields exactly one result per job posting, including the
empty-input case. -/
theorem length_invariant (E : Embedder) (cv : CVAnalysis) (jobs : List Job)
    (company_insights_list : List CompanyInsights) (dr dl : String)
    (hlen : ∀ ts, (E.embedBatch ts).length = ts.length) :
    (matchAndRank E cv jobs company_insights_list dr dl).length = jobs.length := by
  rw [matchAndRank, matchAndRankTraced]
  by_cases h : jobs.isEmpty
  · rw [List.isEmpty_iff.mp h]
    simp
  · simp only [h, Bool.false_eq_true, if_false]
    rw [List.length_mergeSort, preMatches]
    simp [createEmbeddingsBatch, hlen]

/-- Witness for C8: the invariant at a concrete one-job input. -/
theorem length_invariant_witness :
    (∀ ts, (mockEmbedder.embedBatch ts).length = ts.length) ∧
    (matchAndRank mockEmbedder sampleCV [sampleJob] [] "" "").length = [sampleJob].length :=
  ⟨fun ts => by simp [mockEmbedder],
    length_invariant mockEmbedder sampleCV [sampleJob] [] "" ""
      (fun ts => by simp [mockEmbedder])⟩

lemma scoreDesc_trans : ∀ a b c : JobMatch, scoreDesc a b → scoreDesc b c → scoreDesc a c := by
  intro a b c hab hbc
  simp only [scoreDesc, decide_eq_true_eq] at hab hbc ⊢
  exact le_trans hbc hab

lemma scoreDesc_total : ∀ a b : JobMatch, scoreDesc a b || scoreDesc b a := by
  intro a b
  simp only [scoreDesc, Bool.or_eq_true, decide_eq_true_eq]
  exact le_total b.match_score a.match_score

lemma filter_score_pairwise (l : List JobMatch) (c : ℝ) :
    (l.filter fun m => decide (m.match_score = c)).Pairwise
      fun a b => scoreDesc a b = true := by
  apply List.pairwise_of_forall_mem_list
  intro a ha b hb
  have ha2 := (List.mem_filter.mp ha).2
  have hb2 := (List.mem_filter.mp hb).2
  simp only [decide_eq_true_eq] at ha2 hb2
  simp only [scoreDesc, decide_eq_true_eq, ha2, hb2, le_refl]

/-- C9: the ranking output is sorted by score in non-increasing order, and
the sort is stable — within every score class the output preserves the
order of the per-job match list built in input order. -/
theorem rank_sorted_and_stable (E : Embedder) (cv : CVAnalysis) (jobs : List Job)
    (company_insights_list : List CompanyInsights) (dr dl : String) :
    List.Pairwise (fun a b => b.match_score ≤ a.match_score)
      (matchAndRank E cv jobs company_insights_list dr dl) ∧
    ∀ c : ℝ,
      (matchAndRank E cv jobs company_insights_list dr dl).filter
          (fun m => decide (m.match_score = c)) =
        (preMatches E cv jobs company_insights_list dr dl).filter
          (fun m => decide (m.match_score = c)) := by
  rw [matchAndRank, matchAndRankTraced]
  by_cases h : jobs.isEmpty
  · rw [List.isEmpty_iff.mp h]
    simp [preMatches]
  · simp only [h, Bool.false_eq_true, if_false]
    constructor
    · have hs := List.sorted_mergeSort scoreDesc_trans scoreDesc_total
        (preMatches E cv jobs company_insights_list dr dl)
      exact hs.imp fun hab => by
        simpa [scoreDesc, decide_eq_true_eq] using hab
    · intro c
      have hpw := filter_score_pairwise (preMatches E cv jobs company_insights_list dr dl) c
      have hsub := List.sublist_mergeSort scoreDesc_trans scoreDesc_total hpw
        (List.filter_sublist _)
      have hperm :
          List.Perm
            (((preMatches E cv jobs company_insights_list dr dl).mergeSort scoreDesc).filter
              (fun m => decide (m.match_score = c)))
            ((preMatches E cv jobs company_insights_list dr dl).filter
              (fun m => decide (m.match_score = c))) :=
        (List.mergeSort_perm _ _).filter _
      have hsub2 := hsub.filter fun m => decide (m.match_score = c)
      rw [List.filter_filter] at hsub2
      simp only [Bool.and_self] at hsub2
      exact (hsub2.eq_of_length (by rw [hperm.length_eq])).symm

/-- Witness for C3: the gap criterion instantiated for `"Rust"` against a
concrete candidate list and job text. -/
theorem gaps_spec_witness :
    "Rust" ∈ (calculateSkillOverlap ["Python"] "We use Rust").2 ↔
      "Rust" ∈ commonTechSkills ∧ lowerChars "Rust" <:+: lowerChars "We use Rust" ∧
        "Rust" ∉ ["Python"] :=
  (gaps_spec ["Python"] "We use Rust").1 "Rust"

/-- Witness for C4: the whole-word overlap criterion instantiated for
`"Python"` against a concrete candidate list and job text. -/
theorem overlap_spec_witness :
    "Python" ∈ (calculateSkillOverlap ["Python"] "We use Python daily").1 ↔
      "Python" ∈ ["Python"] ∧
        ∃ i, lowerChars "Python" <+: (lowerChars "We use Python daily").drop i ∧
          boundary (lowerChars "We use Python daily") i = true ∧
          boundary (lowerChars "We use Python daily") (i + (lowerChars "Python").length) = true :=
  (overlap_spec ["Python"] "We use Python daily").2.2.1 "Python"
